import Mathlib

/-!
Shallow embedding of the pico-fmt formatting engine (src/pico_fmt/printf.c).

Modelling choices, stated once:
* C `char` bytes are modelled as `Nat` byte values (`Char.toNat` on the Lean
  side of format strings); machine-integer truncation is explicit `% 2^w`.
* The target platform is ILP32 (the Pico): `int` = `long` = 32 bits
  (`__SIZEOF_LONG__ == __SIZEOF_INT__`, so `_ntoal` aliases `_ntoa`),
  `long long` = 64 bits, pointers 32 bits.  The digit-generation algorithm of
  the `_define_ntoa` macro is width-independent, so a single `ntoa` over `Nat`
  absolute values embeds `_ntoa`/`_ntoal`/`_ntoall`.
* C `double` is modelled as `ℚ`.  Every arithmetic operation `_ftoa` performs
  (subtraction, multiplication by a power of ten, comparison, truncation) is
  exact on the rationals; `ℚ` has no NaN, so the `is_nan` branch of
  `_float_special` is vacuous in the model.
* The decimal-exponent estimation in `_etoa` works by bit-punning the IEEE-754
  representation; over `ℚ` it is modelled by the exact decimal exponent
  (`Int.log 10`), which is what the bit-twiddling plus its correction step
  compute up to rounding.  No claim depends on the digits `_etoa` produces.
* C loops are modelled either as `List.replicate` (padding loops whose trip
  count is a closed-form `Nat` subtraction) or as structural recursion on a
  fuel argument that provably dominates the trip count (each iteration of the
  top-level format loop consumes at least one format byte, so
  `fuel = format.length` suffices; the digit loops divide their argument by
  the base ≥ 2 each step, so `fuel = value` suffices).
* The dynamic sink function pointer `fct` is modelled as a `Bool` (present or
  null) plus the list of characters delivered, since the engine never reads
  anything from the sink other than its own running count `idx`.
* C function pointers in the specifier table are defunctionalised into the
  inductive `Conv` naming the built-in handlers; `fmt_install` is polymorphic
  in the handler type exactly as the C table is agnostic to what the pointers
  point at.
-/

/-- The six flag bits of `pico/fmt_printf.h` (`FMT_FLAG_*`), as a record of
booleans: ZEROPAD `'0'`, LEFT `'-'`, PLUS `'+'`, SPACE `' '`, HASH `'#'`,
PRECISION (a `.` was parsed). -/
structure FmtFlags where
  zeropad : Bool
  left : Bool
  plus : Bool
  space : Bool
  hash : Bool
  precisionSet : Bool
deriving DecidableEq, Repr

def FmtFlags.none : FmtFlags :=
  ⟨false, false, false, false, false, false⟩

/-- `enum fmt_size`: the parsed length modifier. -/
inductive FmtSize where
  | sizeChar
  | sizeShort
  | sizeDefault
  | sizeLong
  | sizeLongLong
deriving DecidableEq, Repr

/-- The per-directive fields of `struct fmt_state` (`args` and `ctx` are
threaded separately). `specifier` is the byte value of the specifier
character. -/
structure FmtSpec where
  flags : FmtFlags
  width : Nat
  precision : Nat
  size : FmtSize
  specifier : Nat
deriving DecidableEq, Repr

/-- One variadic argument, tagged by the C type `va_arg` reads it at.
Integer payloads are mathematical integers; the engine truncates them to the
machine width at the `va_arg` read, mirroring the C casts. -/
inductive FmtArg where
  | intArg (n : ℤ)
  | uintArg (n : ℤ)
  | longArg (n : ℤ)
  | ulongArg (n : ℤ)
  | llArg (n : ℤ)
  | ullArg (n : ℤ)
  | dblArg (q : ℚ)
  | strArg (s : List Char)
  | ptrArg (n : ℤ)
deriving DecidableEq, Repr

/-- Read an integer twos-complement style as an unsigned `w`-bit value
(the C cast to `unsigned` of width `w`). -/
def utrunc (w : Nat) (n : ℤ) : Nat :=
  (n % (2 ^ w : ℤ)).toNat

/-- Read an integer twos-complement style as a signed `w`-bit value
(the C cast to a signed type of width `w`). -/
def strunc (w : Nat) (n : ℤ) : ℤ :=
  (n + 2 ^ (w - 1)) % 2 ^ w - 2 ^ (w - 1)

/-- `va_arg(*state->args, int)` (also used for the promoted `char`/`short`
reads).  A read from an empty or differently-typed argument list is undefined
behaviour in C; the model totalises it to the payload (any tag) or zero. -/
def vaInt : List FmtArg → ℤ × List FmtArg
  | [] => (0, [])
  | .intArg n :: r => (strunc 32 n, r)
  | .uintArg n :: r => (strunc 32 n, r)
  | .longArg n :: r => (strunc 32 n, r)
  | .ulongArg n :: r => (strunc 32 n, r)
  | .llArg n :: r => (strunc 32 n, r)
  | .ullArg n :: r => (strunc 32 n, r)
  | .dblArg _ :: r => (0, r)
  | .strArg _ :: r => (0, r)
  | .ptrArg n :: r => (strunc 32 n, r)

/-- `va_arg(*state->args, long long)` (64-bit on the modelled platform). -/
def vaLongLong : List FmtArg → ℤ × List FmtArg
  | [] => (0, [])
  | .llArg n :: r => (strunc 64 n, r)
  | .ullArg n :: r => (strunc 64 n, r)
  | .intArg n :: r => (strunc 64 n, r)
  | .uintArg n :: r => (strunc 64 n, r)
  | .longArg n :: r => (strunc 64 n, r)
  | .ulongArg n :: r => (strunc 64 n, r)
  | .dblArg _ :: r => (0, r)
  | .strArg _ :: r => (0, r)
  | .ptrArg n :: r => (strunc 64 n, r)

/-- `va_arg(*state->args, unsigned int)` / `unsigned long` (both 32-bit). -/
def vaUInt (args : List FmtArg) : Nat × List FmtArg :=
  let (n, r) := vaInt args
  (utrunc 32 n, r)

/-- `va_arg(*state->args, unsigned long long)`. -/
def vaULongLong (args : List FmtArg) : Nat × List FmtArg :=
  let (n, r) := vaLongLong args
  (utrunc 64 n, r)

/-- `va_arg(*state->args, double)`. -/
def vaDouble : List FmtArg → ℚ × List FmtArg
  | [] => (0, [])
  | .dblArg q :: r => (q, r)
  | _ :: r => (0, r)

/-- `va_arg(*state->args, char *)`; the pointed-to NUL-terminated string is
modelled as the list of its bytes before the NUL. -/
def vaStr : List FmtArg → List Char × List FmtArg
  | [] => ([], [])
  | .strArg s :: r => (s, r)
  | _ :: r => ([], r)

/-- `va_arg(*state->args, void *)` as a 32-bit address. -/
def vaPtr (args : List FmtArg) : Nat × List FmtArg :=
  let (n, r) := vaInt args
  (utrunc 32 n, r)

/-- `_is_digit`. -/
def isDigitByte (b : Nat) : Bool :=
  48 ≤ b && b ≤ 57

/-- `_is_upper`. -/
def isUpperByte (b : Nat) : Bool :=
  65 ≤ b && b ≤ 90

-- int ////////////////////////////////////////////////////////////////////////

/-- The `while (absval / div >= base) { div *= base; ndigits++; }` loop of
`_define_ntoa`, with a fuel argument; each iteration multiplies `div` by
`base ≥ 2`, so `fuel = absval` dominates the trip count. Returns
`(ndigits, div)`. -/
def ntoaScaleLoop : Nat → Nat → Nat → Nat → Nat → Nat × Nat
  | 0, _, _, div, ndigits => (ndigits, div)
  | fuel + 1, absval, base, div, ndigits =>
    if base ≤ absval / div then
      ntoaScaleLoop fuel absval base (div * base) (ndigits + 1)
    else
      (ndigits, div)

/-- `ndigits`/`div` computation of `_define_ntoa`: zero digits for a zero
value, otherwise the scaling loop starting from `ndigits = 1, div = 1`. -/
def ntoaScale (absval base : Nat) : Nat × Nat :=
  if absval = 0 then (0, 1) else ntoaScaleLoop absval absval base 1 1

/-- One digit character: `'0' + digit` below ten, letters (cased by the
specifier) from ten up. -/
def digitChar (upper : Bool) (d : Nat) : Char :=
  if d < 10 then Char.ofNat (48 + d)
  else Char.ofNat ((if upper then 65 else 97) + d - 10)

/-- The most-significant-first digit-emission loop of `_define_ntoa`
(`for (unsigned i = 0; i < ndigits; i++) { ... }`), recursing on the
remaining digit count. -/
def ntoaDigits (upper : Bool) (base : Nat) : Nat → Nat → Nat → List Char
  | 0, _, _ => []
  | n + 1, absval, div =>
    digitChar upper (absval / div) ::
      ntoaDigits upper base n (absval % div) (div / base)

/-- The `nextra` computation at the top of `_ntoa_intro`: how many sign or
base-marker characters precede the digits. -/
def ntoaNextra (st : FmtSpec) (base : Nat) (sign : ℤ) : Nat :=
  match base with
  | 2 => if st.flags.hash && sign ≠ 0 then 2 else 0
  | 8 => if st.flags.hash && sign ≠ 0 then 1 else 0
  | 10 =>
    if st.flags.plus || st.flags.space then 1
    else if sign < 0 then 1 else 0
  | 16 => if st.flags.hash && sign ≠ 0 then 2 else 0
  | _ => 0

/-- The sign/base-marker characters `_ntoa_intro` emits (`'0b'`, leading `'0'`
for octal, `'-'`/`'+'`/`' '`, `'0x'`/`'0X'` — the second hex character is the
specifier byte itself). -/
def ntoaBaseSign (st : FmtSpec) (base : Nat) (sign : ℤ) : List Char :=
  match base with
  | 2 => if st.flags.hash && sign ≠ 0 then ['0', 'b'] else []
  | 8 => if st.flags.hash && sign ≠ 0 then ['0'] else []
  | 10 =>
    if sign < 0 then ['-']
    else if st.flags.plus then ['+']
    else if st.flags.space then [' ']
    else []
  | 16 => if st.flags.hash && sign ≠ 0 then ['0', Char.ofNat (st.specifier % 256)] else []
  | _ => []

/-- `_ntoa_intro`: leading spaces, base/sign characters, leading zeros (or the
lone `'0'` digit of a zero value).  Returns the emitted characters and the
state (whose ZEROPAD flag is cleared when PRECISION is set). -/
def ntoaIntro (st : FmtSpec) (base ndigits : Nat) (sign : ℤ) : List Char × FmtSpec :=
  let nextra := ntoaNextra st base sign
  let st :=
    if st.flags.precisionSet then
      { st with flags := { st.flags with zeropad := false } }
    else st
  let lead :=
    if st.width ≠ 0 && !st.flags.left && !st.flags.zeropad then
      List.replicate (st.width - (max st.precision ndigits + nextra)) ' '
    else []
  let marks := ntoaBaseSign st base sign
  let zeros :=
    if st.flags.precisionSet then
      List.replicate (st.precision - ndigits) '0'
    else if st.width ≠ 0 && !st.flags.left && st.flags.zeropad then
      List.replicate (st.width - (ndigits + nextra)) '0'
    else if sign = 0 then ['0']
    else []
  (lead ++ marks ++ zeros, st)

/-- `_ntoa_outro`: trailing spaces until the directive has emitted `width`
characters. -/
def ntoaOutro (st : FmtSpec) (emitted : Nat) : List Char :=
  List.replicate (st.width - emitted) ' '

/-- `_ntoa` (the body of the `_define_ntoa` macro, common to all three C
instantiations): scale, intro, digits, outro. -/
def ntoa (st : FmtSpec) (absval : Nat) (negative : Bool) (base : Nat) : List Char :=
  let (ndigits, div) := ntoaScale absval base
  let sign : ℤ := if absval ≠ 0 then (if negative then -1 else 1) else 0
  let (intro, stML) := ntoaIntro st base ndigits sign
  let body := intro ++ ntoaDigits (isUpperByte st.specifier) base ndigits absval div
  body ++ ntoaOutro stML body.length

-- float //////////////////////////////////////////////////////////////////////

def PICO_PRINTF_FTOA_BUFFER_SIZE : Nat := 32

def PICO_PRINTF_DEFAULT_FLOAT_PRECISION : Nat := 6

def PICO_PRINTF_MAX_FLOAT : ℚ := 1000000000

/-- `DBL_MAX` of `<float.h>`, exactly: `(2 - 2^-52) * 2^1023`. -/
def DBL_MAX : ℚ := (2 ^ 53 - 1) * 2 ^ 971

/-- `_out_rev`: left space padding (when neither LEFT nor ZEROPAD), the buffer
reversed, then right space padding up to `width` (when LEFT). -/
def outRev (st : FmtSpec) (buf : List Char) : List Char :=
  let lead :=
    if !st.flags.left && !st.flags.zeropad then
      List.replicate (st.width - buf.length) ' '
    else []
  let mid := lead ++ buf.reverse
  if st.flags.left then mid ++ List.replicate (st.width - mid.length) ' ' else mid

/-- `_float_special`.  `ℚ` has no NaN, so only the two infinity-shaped
branches remain; the buffers are reversed by `_out_rev`. -/
def floatSpecial (st : FmtSpec) (value : ℚ) : Option (List Char) :=
  if value < -DBL_MAX then some (outRev st ['f', 'n', 'i', '-'])
  else if value > DBL_MAX then
    some (outRev st (if st.flags.plus then ['f', 'n', 'i', '+'] else ['f', 'n', 'i']))
  else none

/-- One `buf[len++] = c` guarded by the `len == PICO_PRINTF_FTOA_BUFFER_SIZE`
check of `_ftoa`; `none` is the `ftoa_exceeded` state. -/
def ftoaPush (b : Option (List Char)) (c : Char) : Option (List Char) :=
  b.bind fun l =>
    if l.length = PICO_PRINTF_FTOA_BUFFER_SIZE then none else some (l ++ [c])

/-- `n` consecutive guarded pushes of the character `c`: they all succeed
exactly when the buffer has room for all of them, and otherwise the
`len == PICO_PRINTF_FTOA_BUFFER_SIZE` check fires part-way through. -/
def ftoaPushRun (b : Option (List Char)) (n : Nat) (c : Char) : Option (List Char) :=
  b.bind fun l =>
    if l.length + n ≤ PICO_PRINTF_FTOA_BUFFER_SIZE then
      some (l ++ List.replicate n c)
    else none

/-- Guarded pushes of each character of `cs` in order. -/
def ftoaPushList (b : Option (List Char)) (cs : List Char) : Option (List Char) :=
  b.bind fun l =>
    if l.length + cs.length ≤ PICO_PRINTF_FTOA_BUFFER_SIZE then
      some (l ++ cs)
    else none

/-- The `buf[len++] = 48 + (x % 10); if (!(x /= 10)) break;` do-while pattern
of `_ftoa` (used for both the fractional and the whole part): the decimal
digits of `x`, least significant first, at least one digit.  `fuel` bounds the
iteration count; each step divides by ten, so `x` itself is enough fuel. -/
def lsdDigitLoop : Nat → Nat → List Char
  | 0, _ => []
  | fuel + 1, x =>
    Char.ofNat (48 + x % 10) :: (if x / 10 = 0 then [] else lsdDigitLoop fuel (x / 10))

/-- The decimal digits of `x`, least significant first (the do-while loop with
sufficient fuel). -/
def lsdDigits (x : Nat) : List Char := lsdDigitLoop (x + 1) x

/-- The rounding step of `_ftoa` (printf.c lines 378–392): truncate `tmp` to
`frac`, compare the residual `diff` against one half, and round.  Above a half
the increment carries into the whole part when `frac` reaches
`pow10[precision]` (the `precisionPow` argument); at exactly a half the source
increments when `frac == 0` or `frac` is odd (`frac & 1`).  Returns the
rounded fraction and the carry flag. -/
def ftoaRoundFrac (precisionPow : ℚ) (tmp : ℚ) : Nat × Bool :=
  let frac : Nat := (⌊tmp⌋).toNat
  let diff : ℚ := tmp - (frac : ℚ)
  if diff > 1 / 2 then
    if ((frac + 1 : Nat) : ℚ) ≥ precisionPow then (0, true) else (frac + 1, false)
  else if diff < 1 / 2 then (frac, false)
  else if frac = 0 ∨ frac % 2 = 1 then (frac + 1, false)
  else (frac, false)

/-- The `if (state->precision == 0U)` branch of `_ftoa`: recompute the
residual of `value` against the (possibly already carried-into) whole part and
round the whole part up when the residual is exactly one half and the whole
part is odd. -/
def ftoaRoundWhole (value : ℚ) (whole : Nat) : Nat :=
  let diff := value - (whole : ℚ)
  if ¬(diff < 1 / 2 ∨ diff > 1 / 2) ∧ whole % 2 = 1 then whole + 1 else whole

def ftoaExceededDiag : List Char :=
  "%!(exceeded PICO_PRINTF_FTOA_BUFFER_SIZE)".toList

/-- `_ftoa`: fixed-notation conversion of a (modelled) double.  The buffer is
built least-significant-first exactly as in the source — excess-precision
zeros, fraction digits, zero fill, decimal point, whole digits, zero padding,
sign — and handed to `_out_rev`; a buffer overflow at any push aborts into the
`%!(exceeded PICO_PRINTF_FTOA_BUFFER_SIZE)` diagnostic. -/
def ftoa (st : FmtSpec) (value : ℚ) : List Char :=
  match floatSpecial st value with
  | some out => out
  | none =>
    let negative := value < 0
    let value := if value < 0 then 0 - value else value
    let st :=
      if !st.flags.precisionSet then
        { st with precision := PICO_PRINTF_DEFAULT_FLOAT_PRECISION }
      else st
    -- while (state->precision >= 10): emit a '0', decrement precision
    let excess := st.precision - 9
    let buf : Option (List Char) := ftoaPushRun (some []) excess '0'
    let st := { st with precision := st.precision - excess }
    let whole : Nat := (⌊value⌋).toNat
    let tmp : ℚ := (value - (whole : ℚ)) * 10 ^ st.precision
    let (frac, carry) := ftoaRoundFrac ((10 : ℚ) ^ st.precision) tmp
    let whole := if carry then whole + 1 else whole
    let (buf, whole) :=
      if st.precision = 0 then
        (buf, ftoaRoundWhole value whole)
      else
        -- fractional digits, `count` zero fill (unsigned 32-bit wraparound),
        -- then the decimal point
        let fds := lsdDigits frac
        let buf := ftoaPushList buf fds
        let zeros := (((st.precision : ℤ) - (fds.length : ℤ)) % 2 ^ 32).toNat
        let buf := ftoaPushRun buf zeros '0'
        (ftoaPush buf '.', whole)
    let buf := ftoaPushList buf (lsdDigits whole)
    let (buf, st) :=
      if !st.flags.left && st.flags.zeropad then
        let st :=
          if st.width ≠ 0 && (negative || st.flags.plus || st.flags.space) then
            { st with width := st.width - 1 }
          else st
        (buf.bind fun l => ftoaPushRun (some l) (st.width - l.length) '0', st)
      else (buf, st)
    let buf :=
      if negative then ftoaPush buf '-'
      else if st.flags.plus then ftoaPush buf '+'
      else if st.flags.space then ftoaPush buf ' '
      else buf
    match buf with
    | none => ftoaExceededDiag
    | some l => outRev st l

/-- `_etoa`: exponential-notation conversion.  The bit-punning decimal
exponent estimation of the source (lines 488–514) is modelled by the exact
decimal exponent `Int.log 10 value` with scale `10^expval`, which is what the
estimation plus its `value < conv.F` correction step compute; every other step
follows the source. -/
def etoa (st : FmtSpec) (value : ℚ) (adaptExp : Bool) : List Char :=
  match floatSpecial st value with
  | some out => out
  | none =>
    let negative := value < 0
    let value := if negative then -value else value
    let st :=
      if !st.flags.precisionSet then
        { st with precision := PICO_PRINTF_DEFAULT_FLOAT_PRECISION }
      else st
    let isZero := value = 0
    let expval : ℤ := if isZero then 0 else Int.log 10 value
    let convF : ℚ := (10 : ℚ) ^ expval
    let minwidth : Nat := if expval < 100 ∧ -100 < expval then 4 else 5
    let (st, minwidth, expval) :=
      if adaptExp then
        if isZero ∨ (1 / 10000 ≤ value ∧ value < 1000000) then
          let prec :=
            if (st.precision : ℤ) > expval then ((st.precision : ℤ) - expval - 1).toNat
            else 0
          ({ st with precision := prec,
                     flags := { st.flags with precisionSet := true } }, 0, (0 : ℤ))
        else if 0 < st.precision ∧ st.flags.precisionSet then
          ({ st with precision := st.precision - 1 }, minwidth, expval)
        else (st, minwidth, expval)
      else (st, minwidth, expval)
    let fwidth := if minwidth < st.width then st.width - minwidth else 0
    let fwidth := if st.flags.left ∧ minwidth ≠ 0 then 0 else fwidth
    let value := if expval ≠ 0 then value / convF else value
    let mant :=
      ftoa { flags := st.flags, width := fwidth, precision := st.precision,
             size := st.size, specifier := 102 }
        (if negative then -value else value)
    if minwidth ≠ 0 then
      let echar := if isUpperByte st.specifier then 'E' else 'e'
      let ent :=
        ntoa { flags := { FmtFlags.none with zeropad := true, plus := true },
               width := minwidth - 1, precision := 0, size := st.size,
               specifier := 100 }
          expval.natAbs (expval < 0) 10
      let out := mant ++ [echar] ++ ent
      if st.flags.left then out ++ List.replicate (st.width - out.length) ' ' else out
    else mant

-- main ///////////////////////////////////////////////////////////////////////

/-- `_put_quoted_byte`: a quoted rendering of the byte `c` (expected already
cast to `unsigned char`, i.e. `< 256`).  Printable ASCII (0x20–0x7E) is shown
as-is (backslash-escaping the quote and the backslash); any other byte is
shown as a backslash, an `x`, and then — exactly as in the source — the two
raw nibble *values* `(c >> 4) & 0xF` and `c & 0xF` passed directly to
`fmt_state_putchar`, not their ASCII hex-digit characters. -/
def putQuotedByte (c : Nat) : List Char :=
  let q := Char.ofNat 39
  let bslash := Char.ofNat 92
  [q] ++
    (if 32 ≤ c ∧ c ≤ 126 then
      (if c = 39 ∨ c = 92 then [bslash] else []) ++ [Char.ofNat c]
    else
      [bslash, 'x', Char.ofNat ((c >>> 4) &&& 0xF), Char.ofNat (c &&& 0xF)]) ++
  [q]

/-- The `%!(unknown specifier='…')` diagnostic of `_vfctprintf` (lines
777–781): the fixed text, the quoted `(unsigned char)` specifier byte, and the
closing parenthesis. -/
def unknownSpecDiag (b : Nat) : List Char :=
  "%!(unknown specifier=".toList ++ putQuotedByte (b % 256) ++ [')']

/-- The built-in conversion handlers, defunctionalising the
`fmt_specifier_t` function pointers stored in `specifier_table`. -/
inductive Conv where
  | sint
  | uint
  | dbl
  | chr
  | str
  | ptr
  | pct
deriving DecidableEq, Repr

/-- `conv_sint`: pop a signed value at the parsed size, split it into an
unsigned magnitude (`value > 0 ? value : 0 - value`, read back at the unsigned
type of the same rank) and a sign, and hand both to the integer converter. -/
def convSint (st : FmtSpec) (args : List FmtArg) : List Char × List FmtArg :=
  match st.size with
  | .sizeLongLong =>
    let (value, r) := vaLongLong args
    (ntoa st (utrunc 64 (if value > 0 then value else 0 - value)) (value < 0) 10, r)
  | .sizeLong =>
    let (value, r) := vaInt args
    (ntoa st (utrunc 32 (if value > 0 then value else 0 - value)) (value < 0) 10, r)
  | .sizeDefault =>
    let (value, r) := vaInt args
    (ntoa st (utrunc 32 (if value > 0 then value else 0 - value)) (value < 0) 10, r)
  | .sizeShort =>
    let (v0, r) := vaInt args
    let value := strunc 16 v0
    (ntoa st (utrunc 32 (if value > 0 then value else 0 - value)) (value < 0) 10, r)
  | .sizeChar =>
    let (v0, r) := vaInt args
    let value := strunc 8 v0
    (ntoa st (utrunc 32 (if value > 0 then value else 0 - value)) (value < 0) 10, r)

/-- `conv_uint`: base selection from the specifier byte (`x X o b u`; `u`
clears the PLUS and SPACE flags), then an unsigned pop at the parsed size.
The `default: __builtin_unreachable()` arm — the table routes only the five
bytes above here — is totalised to base 10. -/
def convUint (st : FmtSpec) (args : List FmtArg) : List Char × List FmtArg :=
  let (base, st) : Nat × FmtSpec :=
    if st.specifier = 120 ∨ st.specifier = 88 then (16, st)
    else if st.specifier = 111 then (8, st)
    else if st.specifier = 98 then (2, st)
    else if st.specifier = 117 then
      (10, { st with flags := { st.flags with plus := false, space := false } })
    else (10, st)
  match st.size with
  | .sizeLongLong =>
    let (value, r) := vaULongLong args
    (ntoa st value false base, r)
  | .sizeLong =>
    let (value, r) := vaUInt args
    (ntoa st value false base, r)
  | .sizeDefault =>
    let (value, r) := vaUInt args
    (ntoa st value false base, r)
  | .sizeShort =>
    let (v0, r) := vaInt args
    (ntoa st (utrunc 16 v0) false base, r)
  | .sizeChar =>
    let (v0, r) := vaInt args
    (ntoa st (utrunc 8 v0) false base, r)

def maxFloatDiag : List Char :=
  "%!(exceeded PICO_PRINTF_MAX_FLOAT)".toList

/-- `conv_double`: pop a double; for `%f/%F` refuse magnitudes in
`(PICO_PRINTF_MAX_FLOAT, DBL_MAX)` with a diagnostic, otherwise convert in
fixed notation; `%e/%E` and `%g/%G` go to the exponential converter. -/
def convDouble (st : FmtSpec) (args : List FmtArg) : List Char × List FmtArg :=
  let (value, r) := vaDouble args
  if st.specifier = 102 ∨ st.specifier = 70 then
    if (value > PICO_PRINTF_MAX_FLOAT ∧ value < DBL_MAX) ∨
        (value < -PICO_PRINTF_MAX_FLOAT ∧ value > -DBL_MAX) then
      (maxFloatDiag, r)
    else
      (ftoa st value, r)
  else if st.specifier = 101 ∨ st.specifier = 69 then
    (etoa st value false, r)
  else if st.specifier = 103 ∨ st.specifier = 71 then
    (etoa st value true, r)
  else
    ([], r)

/-- `conv_char`: space padding to the width around the single popped byte
(`(char) va_arg(..., int)`). -/
def convChar (st : FmtSpec) (args : List FmtArg) : List Char × List FmtArg :=
  let (n, r) := vaInt args
  let c := Char.ofNat (utrunc 8 n)
  let pre := if !st.flags.left then List.replicate (st.width - 1) ' ' else []
  let post := if st.flags.left then List.replicate (st.width - 1) ' ' else []
  (pre ++ [c] ++ post, r)

/-- `_strnlen_s`: the string length limited by `maxsize`. -/
def strnlenS (s : List Char) (maxsize : Nat) : Nat :=
  min s.length maxsize

/-- `conv_str`: bounded strlen (limit `precision` when nonzero, else
`(size_t)-1`), clamp to the precision when PRECISION is set, space padding on
the chosen side, and the content bytes early-stopped by the decrementing
precision counter. -/
def convStr (st : FmtSpec) (args : List FmtArg) : List Char × List FmtArg :=
  let (s, r) := vaStr args
  let l := strnlenS s (if st.precision = 0 then 2 ^ 32 - 1 else st.precision)
  let l := if st.flags.precisionSet then min l st.precision else l
  let pre := if !st.flags.left then List.replicate (st.width - l) ' ' else []
  let content := if st.flags.precisionSet then s.take st.precision else s
  let post := if st.flags.left then List.replicate (st.width - l) ' ' else []
  (pre ++ content ++ post, r)

/-- `conv_ptr`: force width `2 * sizeof(void *)` (8 on the modelled 32-bit
platform), ZEROPAD, specifier `'X'`, and convert the popped address in base
16. -/
def convPtr (st : FmtSpec) (args : List FmtArg) : List Char × List FmtArg :=
  let st := { st with width := 8,
                      flags := { st.flags with zeropad := true },
                      specifier := 88 }
  let (value, r) := vaPtr args
  (ntoa st value false 16, r)

/-- `conv_pct`: a literal `'%'`. -/
def convPct (_st : FmtSpec) (args : List FmtArg) : List Char × List FmtArg :=
  (['%'], args)

/-- Interpretation of a stored handler. -/
def runConv : Conv → FmtSpec → List FmtArg → List Char × List FmtArg
  | .sint => convSint
  | .uint => convUint
  | .dbl => convDouble
  | .chr => convChar
  | .str => convStr
  | .ptr => convPtr
  | .pct => convPct

/-- The initial contents of `specifier_table` (an array of `0x7F` slots): the
built-in entries at `d i u x X o b f F e E g G c s p %`, null elsewhere. -/
def specifier_table : Fin 0x7F → Option Conv := fun i =>
  if i.val = 100 ∨ i.val = 105 then some .sint
  else if i.val = 117 ∨ i.val = 120 ∨ i.val = 88 ∨ i.val = 111 ∨ i.val = 98 then
    some .uint
  else if i.val = 102 ∨ i.val = 70 ∨ i.val = 101 ∨ i.val = 69 ∨
      i.val = 103 ∨ i.val = 71 then
    some .dbl
  else if i.val = 99 then some .chr
  else if i.val = 115 then some .str
  else if i.val = 112 then some .ptr
  else if i.val = 37 then some .pct
  else none

/-- `fmt_install`: cast the character to `unsigned char`, and store the
handler when the index is inside the table, strictly above `' '`, at most
`'~'`, and not a digit; otherwise do nothing.  Polymorphic in the stored
handler type, as the C table is agnostic to what the `fmt_specifier_t`
pointers point at (`none` is a NULL handler). -/
def fmt_install {H : Type} (character : Nat) (fn : Option H)
    (tbl : Fin 0x7F → Option H) : Fin 0x7F → Option H :=
  let idx := character % 256
  if h : idx < 0x7F ∧ 32 < idx ∧ idx ≤ 126 ∧ ¬(48 ≤ idx ∧ idx ≤ 57) then
    fun j => if j = ⟨idx, h.1⟩ then fn else tbl j
  else tbl

/-- The specifier dispatch of `_vfctprintf` (lines 771–781): index the table
only under the `(unsigned int) specifier < array_len(specifier_table)` guard
and only when the slot is non-null; otherwise emit the unknown-specifier
diagnostic. -/
def dispatchSpec (tbl : Fin 0x7F → Option Conv) (st : FmtSpec)
    (args : List FmtArg) : List Char × List FmtArg :=
  if h : st.specifier < 0x7F then
    match tbl ⟨st.specifier, h⟩ with
    | some cv => runConv cv st args
    | none => (unknownSpecDiag st.specifier, args)
  else (unknownSpecDiag st.specifier, args)

def isDigitChar (c : Char) : Bool :=
  '0' ≤ c && c ≤ '9'

/-- The flag-scanning loop of `_vfctprintf`. -/
def parseFlags : List Char → FmtFlags → FmtFlags × List Char
  | '0' :: r, f => parseFlags r { f with zeropad := true }
  | '-' :: r, f => parseFlags r { f with left := true }
  | '+' :: r, f => parseFlags r { f with plus := true }
  | ' ' :: r, f => parseFlags r { f with space := true }
  | '#' :: r, f => parseFlags r { f with hash := true }
  | fmt, f => (f, fmt)

/-- `_atoi`. -/
def atoiLoop : List Char → Nat → Nat × List Char
  | [], acc => (acc, [])
  | c :: r, acc =>
    if isDigitChar c then atoiLoop r (acc * 10 + (c.toNat - 48))
    else (acc, c :: r)

/-- The width field: a digit run, or `'*'` popping an `int` whose negative
values set LEFT and contribute their (unsigned-cast) absolute value. -/
def parseWidth (fmt : List Char) (args : List FmtArg) (flags : FmtFlags) :
    FmtFlags × Nat × List Char × List FmtArg :=
  match fmt with
  | c :: r =>
    if isDigitChar c then
      let (w, fmt) := atoiLoop (c :: r) 0
      (flags, w, fmt, args)
    else if c = '*' then
      let (w, args) := vaInt args
      if w < 0 then ({ flags with left := true }, utrunc 32 (0 - w), r, args)
      else (flags, w.toNat, r, args)
    else (flags, 0, c :: r, args)
  | [] => (flags, 0, [], args)

/-- The precision field: a `'.'` sets PRECISION and is followed by a digit run
or `'*'` (negative pops clamp to zero). -/
def parsePrecision (fmt : List Char) (args : List FmtArg) (flags : FmtFlags) :
    FmtFlags × Nat × List Char × List FmtArg :=
  match fmt with
  | '.' :: r =>
    let flags := { flags with precisionSet := true }
    (match r with
     | c :: r2 =>
       if isDigitChar c then
         let (p, fmt) := atoiLoop (c :: r2) 0
         (flags, p, fmt, args)
       else if c = '*' then
         let (p, args) := vaInt args
         (flags, if p > 0 then p.toNat else 0, r2, args)
       else (flags, 0, c :: r2, args)
     | [] => (flags, 0, [], args))
  | _ => (flags, 0, fmt, args)

/-- The size field (`ll l hh h t j z`); on the modelled ILP32 platform
`ptrdiff_t` and `size_t` have the width of `long` and `intmax_t` that of
`long long`. -/
def parseSize : List Char → FmtSize × List Char
  | 'l' :: 'l' :: r => (.sizeLongLong, r)
  | 'l' :: r => (.sizeLong, r)
  | 'h' :: 'h' :: r => (.sizeChar, r)
  | 'h' :: r => (.sizeShort, r)
  | 't' :: r => (.sizeLong, r)
  | 'j' :: r => (.sizeLongLong, r)
  | 'z' :: r => (.sizeLong, r)
  | r => (.sizeDefault, r)

/-- The `while (*format)` loop of `_vfctprintf`, producing the sequence of
characters handed to `fmt_state_putchar`, in order.  Every iteration consumes
at least the leading byte, so `fuel = format.length` (supplied by `fmtRunT`)
is never exhausted before the format is. -/
def vfctLoop (tbl : Fin 0x7F → Option Conv) :
    Nat → List Char → List FmtArg → List Char
  | 0, _, _ => []
  | _ + 1, [], _ => []
  | fuel + 1, c :: r, args =>
    if c = '%' then
      let (flags, r) := parseFlags r FmtFlags.none
      let (flags, width, r, args) := parseWidth r args flags
      let (flags, precision, r, args) := parsePrecision r args flags
      let (size, r) := parseSize r
      let (specByte, r) : Nat × List Char :=
        match r with
        | [] => (0, [])
        | s :: r2 => (s.toNat, r2)
      let st : FmtSpec :=
        { flags := flags, width := width, precision := precision,
          size := size, specifier := specByte }
      let (es, args) := dispatchSpec tbl st args
      es ++ vfctLoop tbl fuel r args
    else
      c :: vfctLoop tbl fuel r args

/-- `_vfctprintf` over an explicit table: the full character sequence a call
pushes through `fmt_state_putchar`. -/
def fmtRunT (tbl : Fin 0x7F → Option Conv) (format : List Char)
    (args : List FmtArg) : List Char :=
  vfctLoop tbl format.length format args

/-- `_vfctprintf` over the built-in `specifier_table`. -/
def fmtRun (format : List Char) (args : List FmtArg) : List Char :=
  fmtRunT specifier_table format args

/-- `struct _fmt_ctx`: the sink function (modelled by whether it is non-null
plus the characters delivered to it) and the running count `idx`. -/
structure FmtCtx where
  fct : Bool
  out : List Char
  idx : Nat
deriving DecidableEq, Repr

/-- `fmt_state_putchar`: deliver the character only when `fct` is non-null;
always increment `idx`. -/
def fmt_state_putchar (ctx : FmtCtx) (character : Char) : FmtCtx :=
  { fct := ctx.fct,
    out := if ctx.fct then ctx.out ++ [character] else ctx.out,
    idx := ctx.idx + 1 }

/-- `fmt_vfctprintf`: run the engine from a fresh context (`idx = 0`),
pushing every produced character through `fmt_state_putchar`.  The function
returns `(int) ctx.idx`; the model exposes the final context, whose `idx`
field is the return value. -/
def fmt_vfctprintf (fct : Bool) (format : List Char) (args : List FmtArg) :
    FmtCtx :=
  (fmtRun format args).foldl fmt_state_putchar ⟨fct, [], 0⟩

-- theorems ////////////////////////////////////////////////////////////////

-- helper lemmas for C1

lemma foldl_putchar_fct (l : List Char) :
    ∀ ctx : FmtCtx, (l.foldl fmt_state_putchar ctx).fct = ctx.fct := by
  induction l with
  | nil => intro ctx; rfl
  | cons c t ih => intro ctx; simp [List.foldl, ih, fmt_state_putchar]

lemma foldl_putchar_idx (l : List Char) :
    ∀ ctx : FmtCtx, (l.foldl fmt_state_putchar ctx).idx = ctx.idx + l.length := by
  induction l with
  | nil => intro ctx; simp
  | cons c t ih =>
    intro ctx
    simp [List.foldl, ih, fmt_state_putchar]
    omega

lemma foldl_putchar_out_len (l : List Char) :
    ∀ ctx : FmtCtx, ctx.fct = true →
      (l.foldl fmt_state_putchar ctx).out.length = ctx.out.length + l.length := by
  induction l with
  | nil => intro ctx _; simp
  | cons c t ih =>
    intro ctx h
    have h2 : (fmt_state_putchar ctx c).fct = true := by simp [fmt_state_putchar, h]
    show (t.foldl fmt_state_putchar (fmt_state_putchar ctx c)).out.length = _
    rw [ih _ h2]
    simp [fmt_state_putchar, h]
    omega

/-- C1: the return count of `fmt_vfctprintf` does not depend on whether the
sink function is null, it equals the number of characters delivered to a
non-null sink, and for either kind of sink it equals the length of the
character sequence the engine emits (`idx` is advanced by every emitted
character whether or not `fct` is null). -/
theorem claim_C1_count_consistency (format : List Char) (args : List FmtArg) :
    (fmt_vfctprintf false format args).idx = (fmt_vfctprintf true format args).idx ∧
    (fmt_vfctprintf true format args).out.length = (fmt_vfctprintf true format args).idx ∧
    (∀ fct : Bool, (fmt_vfctprintf fct format args).idx = (fmtRun format args).length) := by
  refine ⟨?_, ?_, ?_⟩
  · simp [fmt_vfctprintf, foldl_putchar_idx]
  · simp [fmt_vfctprintf, foldl_putchar_idx,
      foldl_putchar_out_len (fmtRun format args) ⟨true, [], 0⟩ rfl]
  · intro fct; simp [fmt_vfctprintf, foldl_putchar_idx]

/-- C2: evaluation of the code at the failing input.  For the directive
`"%5d"` with argument `0` the rendered content is the single digit `'0'` and
the width is `5 > 1`, so the claim requires exactly `5` emitted bytes; the
code emits `6` (five leading spaces from the width loop of `_ntoa_intro`,
whose content estimate `max(precision, ndigits) + nextra` is `0` for the
value zero, plus the synthesized `'0'` digit of the `sign == 0` branch). -/
theorem claim_C2_zero_width_eval :
    fmtRun ['%', '5', 'd'] [.intArg 0] = [' ', ' ', ' ', ' ', ' ', '0'] ∧
    (fmtRun ['%', '5', 'd'] [.intArg 0]).length = 6 ∧
    ¬ (fmtRun ['%', '5', 'd'] [.intArg 0]).length = 5 := by
  refine ⟨by decide, by decide, by decide⟩

/-- C5: evaluation of the code at the failing input.  For the non-printable
specifier byte `0x01` the engine emits the unknown-specifier diagnostic and
continues at the next format byte, but the two characters after the `\x` are
the raw nibble values `0x00` and `0x01` handed directly to
`fmt_state_putchar`, not the ASCII hex digits `'0'` and `'1'` the claim
requires. -/
theorem claim_C5_raw_nibble_eval :
    fmtRun ['%', Char.ofNat 1, 'A'] [] =
      "%!(unknown specifier=".toList ++
        [Char.ofNat 39, Char.ofNat 92, 'x', Char.ofNat 0, Char.ofNat 1, Char.ofNat 39] ++
        [')'] ++ ['A'] ∧
    ¬ fmtRun ['%', Char.ofNat 1, 'A'] [] =
      "%!(unknown specifier=".toList ++
        [Char.ofNat 39, Char.ofNat 92, 'x', '0', '1', Char.ofNat 39] ++
        [')'] ++ ['A'] := by
  refine ⟨by decide, by decide⟩

/-- C9: a directive whose specifier byte is greater than `0x7E` never indexes
the specifier table: the dispatch takes the unknown-specifier diagnostic path,
and its result is the same whatever the table contents are. -/
theorem claim_C9_no_out_of_range_read (tbl tbl2 : Fin 0x7F → Option Conv)
    (st : FmtSpec) (args : List FmtArg) (h : 0x7E < st.specifier) :
    dispatchSpec tbl st args = (unknownSpecDiag st.specifier, args) ∧
    dispatchSpec tbl st args = dispatchSpec tbl2 st args := by
  have hn : ¬ st.specifier < 0x7F := by omega
  constructor <;> simp [dispatchSpec, hn]

theorem claim_C9_witness :
    0x7E < (0x80 : Nat) ∧
    (dispatchSpec specifier_table
        ⟨FmtFlags.none, 0, 0, .sizeDefault, 0x80⟩ [] =
      (unknownSpecDiag 0x80, []) ∧
    dispatchSpec specifier_table ⟨FmtFlags.none, 0, 0, .sizeDefault, 0x80⟩ [] =
      dispatchSpec (fun _ => Option.none) ⟨FmtFlags.none, 0, 0, .sizeDefault, 0x80⟩ []) :=
  ⟨by decide,
   claim_C9_no_out_of_range_read specifier_table (fun _ => Option.none)
     ⟨FmtFlags.none, 0, 0, .sizeDefault, 0x80⟩ [] (by decide)⟩

/-- C10: installing a NULL handler for an admissible specifier byte clears
the table entry: after `fmt_install('d', NULL)` a `%d` directive renders the
unknown-specifier diagnostic instead of dispatching, while the untouched
table still converts the number. -/
theorem claim_C10_uninstall :
    fmtRunT (fmt_install 100 Option.none specifier_table) ['%', 'd'] [.intArg 37] =
      "%!(unknown specifier=".toList ++ [Char.ofNat 39, 'd', Char.ofNat 39, ')'] ∧
    fmtRunT specifier_table ['%', 'd'] [.intArg 37] = ['3', '7'] := by
  refine ⟨by decide, by decide⟩

/-- C7: `fmt_install` stores the handler exactly for admissible bytes —
strictly above `0x20`, at most `0x7E`, not a digit — leaving every other
entry unchanged, and is the identity on the table for inadmissible bytes. -/
theorem claim_C7_install_admissible (H : Type) (c : Nat) (fn : Option H)
    (tbl : Fin 0x7F → Option H) (hc : c < 256) :
    ((32 < c ∧ c ≤ 126 ∧ ¬(48 ≤ c ∧ c ≤ 57)) →
      ∃ h : c < 0x7F, fmt_install c fn tbl ⟨c, h⟩ = fn ∧
        ∀ j : Fin 0x7F, j.val ≠ c → fmt_install c fn tbl j = tbl j) ∧
    (¬(32 < c ∧ c ≤ 126 ∧ ¬(48 ≤ c ∧ c ≤ 57)) → fmt_install c fn tbl = tbl) := by
  have hmod : c % 256 = c := Nat.mod_eq_of_lt hc
  constructor
  · intro hadm
    have h127 : c < 0x7F := by omega
    have hcond : c % 256 < 0x7F ∧ 32 < c % 256 ∧ c % 256 ≤ 126 ∧
        ¬(48 ≤ c % 256 ∧ c % 256 ≤ 57) := by
      rw [hmod]; exact ⟨h127, hadm.1, hadm.2.1, hadm.2.2⟩
    refine ⟨h127, ?_, ?_⟩
    · simp only [fmt_install]
      rw [dif_pos hcond]
      simp [hmod]
    · intro j hj
      simp only [fmt_install]
      rw [dif_pos hcond]
      have hne : j ≠ ⟨c % 256, hcond.1⟩ := by
        intro he
        exact hj (by rw [he]; exact hmod)
      simp [hne]
  · intro hnadm
    simp only [fmt_install]
    rw [dif_neg]
    intro hcond
    rw [hmod] at hcond
    exact hnadm ⟨hcond.2.1, hcond.2.2.1, hcond.2.2.2⟩

theorem claim_C7_witness :
    113 < 256 ∧
    (((32 < 113 ∧ 113 ≤ 126 ∧ ¬(48 ≤ 113 ∧ 113 ≤ 57)) →
        ∃ h : 113 < 0x7F,
          fmt_install 113 (some 0) (fun _ => (Option.none : Option Nat)) ⟨113, h⟩ =
            some 0 ∧
          ∀ j : Fin 0x7F, j.val ≠ 113 →
            fmt_install 113 (some 0) (fun _ => (Option.none : Option Nat)) j =
              (fun _ => (Option.none : Option Nat)) j) ∧
      (¬(32 < 113 ∧ 113 ≤ 126 ∧ ¬(48 ≤ 113 ∧ 113 ≤ 57)) →
        fmt_install 113 (some 0) (fun _ => (Option.none : Option Nat)) =
          (fun _ => (Option.none : Option Nat)))) :=
  ⟨by decide,
   claim_C7_install_admissible Nat 113 (some 0) (fun _ => Option.none) (by decide)⟩

/-- C4, counterexample: at `tmp = 3/2` the scaled fractional residual is
exactly one half with `frac = 1`, which is neither even nor zero, so the
claim predicts no increment — but the code (which rounds up when `frac` is
odd or zero) increments `frac` to `2`. -/
theorem claim_C4_counterexample :
    ⌊(3 / 2 : ℚ)⌋.toNat = 1 ∧
    (3 / 2 : ℚ) - (⌊(3 / 2 : ℚ)⌋.toNat : ℚ) = 1 / 2 ∧
    ¬(((ftoaRoundFrac 10 (3 / 2)).1 = 1 + 1) ↔ ((1 : Nat) % 2 = 0 ∨ (1 : Nat) = 0)) := by
  have hf : ⌊(3 / 2 : ℚ)⌋ = 1 := by
    rw [Int.floor_eq_iff]; norm_num
  refine ⟨by rw [hf]; rfl, by rw [hf]; norm_num, ?_⟩
  have : (ftoaRoundFrac 10 (3 / 2)).1 = 2 := by
    simp only [ftoaRoundFrac, hf]
    norm_num
  simp [this]

/-- C4, amended: in the rounding step of `_ftoa`, when the scaled fractional
residual is exactly one half, `frac` is incremented if and only if `frac` is
odd or `frac` is zero. -/
theorem claim_C4_amended_round_half (pw tmp : ℚ) (h0 : 0 ≤ tmp)
    (hhalf : tmp - (⌊tmp⌋ : ℚ) = 1 / 2) :
    ((ftoaRoundFrac pw tmp).1 = ⌊tmp⌋.toNat + 1 ↔
      (⌊tmp⌋.toNat % 2 = 1 ∨ ⌊tmp⌋.toNat = 0)) := by
  have hfl0 : 0 ≤ ⌊tmp⌋ := Int.floor_nonneg.mpr h0
  have hcast : ((⌊tmp⌋.toNat : ℚ)) = (⌊tmp⌋ : ℚ) := by
    exact_mod_cast congrArg (fun z : ℤ => (z : ℚ)) (Int.toNat_of_nonneg hfl0)
  have hdiff : tmp - (⌊tmp⌋.toNat : ℚ) = 1 / 2 := by rw [hcast]; exact hhalf
  simp only [ftoaRoundFrac, hdiff]
  norm_num
  by_cases hcnd : ⌊tmp⌋ ≤ 0 ∨ ⌊tmp⌋.toNat % 2 = 1
  · rw [if_pos hcnd]
    simp
    tauto
  · rw [if_neg hcnd]
    push_neg at hcnd
    constructor
    · intro hx
      simp at hx
    · intro hx
      rcases hx with hx | hx
      · exact absurd hx hcnd.2
      · exact absurd hx (not_le.mpr hcnd.1)

theorem claim_C4_amended_witness :
    (0 ≤ (3 / 2 : ℚ)) ∧ ((3 / 2 : ℚ) - (⌊(3 / 2 : ℚ)⌋ : ℚ) = 1 / 2) ∧
    ((ftoaRoundFrac 10 (3 / 2)).1 = ⌊(3 / 2 : ℚ)⌋.toNat + 1 ↔
      (⌊(3 / 2 : ℚ)⌋.toNat % 2 = 1 ∨ ⌊(3 / 2 : ℚ)⌋.toNat = 0)) :=
  ⟨by norm_num,
   by rw [show ⌊(3 / 2 : ℚ)⌋ = 1 by rw [Int.floor_eq_iff]; norm_num]; norm_num,
   claim_C4_amended_round_half 10 (3 / 2) (by norm_num)
     (by rw [show ⌊(3 / 2 : ℚ)⌋ = 1 by rw [Int.floor_eq_iff]; norm_num]; norm_num)⟩

/-- C8: for a `%s` directive with PRECISION set, the emitted characters are
side padding around a prefix of the argument string of length at most the
precision (the `P = 0` case emits no content byte), and exactly one argument
is consumed. -/
theorem claim_C8_str_precision_bound (st : FmtSpec) (s : List Char)
    (rest : List FmtArg) (h : st.flags.precisionSet = true) :
    (∃ a b : Nat,
      (convStr st (.strArg s :: rest)).1 =
        List.replicate a ' ' ++ s.take st.precision ++ List.replicate b ' ' ∧
      (s.take st.precision).length ≤ st.precision) ∧
    (convStr st (.strArg s :: rest)).2 = rest := by
  constructor
  · cases hl : st.flags.left with
    | false =>
      refine ⟨st.width -
        min (strnlenS s (if st.precision = 0 then 2 ^ 32 - 1 else st.precision))
          st.precision, 0, ?_, ?_⟩
      · simp [convStr, vaStr, h, hl]
      · simp
    | true =>
      refine ⟨0, st.width -
        min (strnlenS s (if st.precision = 0 then 2 ^ 32 - 1 else st.precision))
          st.precision, ?_, ?_⟩
      · simp [convStr, vaStr, h, hl]
      · simp
  · simp [convStr, vaStr]

theorem claim_C8_witness :
    (⟨⟨false, false, false, false, false, true⟩, 0, 2, .sizeDefault,
        115⟩ : FmtSpec).flags.precisionSet = true ∧
    ((∃ a b : Nat,
      (convStr ⟨⟨false, false, false, false, false, true⟩, 0, 2, .sizeDefault, 115⟩
          (.strArg ['h', 'e', 'l', 'l', 'o'] :: [])).1 =
        List.replicate a ' ' ++ ['h', 'e', 'l', 'l', 'o'].take 2 ++
          List.replicate b ' ' ∧
      (['h', 'e', 'l', 'l', 'o'].take 2).length ≤ 2) ∧
    (convStr ⟨⟨false, false, false, false, false, true⟩, 0, 2, .sizeDefault, 115⟩
        (.strArg ['h', 'e', 'l', 'l', 'o'] :: [])).2 = []) :=
  ⟨rfl,
   claim_C8_str_precision_bound
     ⟨⟨false, false, false, false, false, true⟩, 0, 2, .sizeDefault, 115⟩
     ['h', 'e', 'l', 'l', 'o'] [] rfl⟩

lemma convDouble_f_overflow (st : FmtSpec) (v : ℚ) (rest : List FmtArg)
    (hspec : st.specifier = 102 ∨ st.specifier = 70)
    (h1 : PICO_PRINTF_MAX_FLOAT < |v|) (h2 : |v| < DBL_MAX) :
    convDouble st (.dblArg v :: rest) = (maxFloatDiag, rest) := by
  have hcond : (v > PICO_PRINTF_MAX_FLOAT ∧ v < DBL_MAX) ∨
      (v < -PICO_PRINTF_MAX_FLOAT ∧ v > -DBL_MAX) := by
    rcases le_or_lt 0 v with hv | hv
    · rw [abs_of_nonneg hv] at h1 h2
      exact Or.inl ⟨h1, h2⟩
    · rw [abs_of_neg hv] at h1 h2
      exact Or.inr ⟨by linarith, by linarith⟩
  simp only [convDouble, vaDouble]
  rw [if_pos hspec, if_pos hcond]

lemma convDouble_f_inrange (st : FmtSpec) (v : ℚ) (rest : List FmtArg)
    (hspec : st.specifier = 102 ∨ st.specifier = 70)
    (h : |v| ≤ PICO_PRINTF_MAX_FLOAT) :
    convDouble st (.dblArg v :: rest) = (ftoa st v, rest) := by
  have hcond : ¬ ((v > PICO_PRINTF_MAX_FLOAT ∧ v < DBL_MAX) ∨
      (v < -PICO_PRINTF_MAX_FLOAT ∧ v > -DBL_MAX)) := by
    rintro (⟨ha, -⟩ | ⟨ha, -⟩)
    · have := le_abs_self v
      linarith
    · have := neg_abs_le v
      linarith
  simp only [convDouble, vaDouble]
  rw [if_pos hspec, if_neg hcond]

/-- C6: a `%f`/`%F` directive whose double argument has magnitude strictly
between `PICO_PRINTF_MAX_FLOAT` and `DBL_MAX` emits exactly the
`%!(exceeded PICO_PRINTF_MAX_FLOAT)` diagnostic (consuming the argument and
no digits), after which the engine continues with the next directive; a
magnitude at most `PICO_PRINTF_MAX_FLOAT` is converted normally by the fixed
converter. -/
theorem claim_C6_max_float (st : FmtSpec) (v : ℚ) (rest : List FmtArg)
    (hspec : st.specifier = 102 ∨ st.specifier = 70) :
    (PICO_PRINTF_MAX_FLOAT < |v| → |v| < DBL_MAX →
      convDouble st (.dblArg v :: rest) = (maxFloatDiag, rest)) ∧
    (|v| ≤ PICO_PRINTF_MAX_FLOAT →
      convDouble st (.dblArg v :: rest) = (ftoa st v, rest)) ∧
    (PICO_PRINTF_MAX_FLOAT < |v| → |v| < DBL_MAX →
      fmtRun ['%', 'f', 'Z'] [.dblArg v] = maxFloatDiag ++ ['Z']) := by
  refine ⟨fun h1 h2 => convDouble_f_overflow st v rest hspec h1 h2,
    fun h => convDouble_f_inrange st v rest hspec h, fun h1 h2 => ?_⟩
  have hcd := convDouble_f_overflow ⟨FmtFlags.none, 0, 0, .sizeDefault, 102⟩ v []
    (Or.inl rfl) h1 h2
  have hstep : fmtRun ['%', 'f', 'Z'] [.dblArg v] =
      (convDouble ⟨FmtFlags.none, 0, 0, .sizeDefault, 102⟩ [.dblArg v]).1 ++
        vfctLoop specifier_table 2 ['Z']
          (convDouble ⟨FmtFlags.none, 0, 0, .sizeDefault, 102⟩ [.dblArg v]).2 := rfl
  rw [hstep, hcd]
  rfl

theorem claim_C6_witness :
    ((⟨FmtFlags.none, 0, 0, .sizeDefault, 102⟩ : FmtSpec).specifier = 102 ∨
      (⟨FmtFlags.none, 0, 0, .sizeDefault, 102⟩ : FmtSpec).specifier = 70) ∧
    (PICO_PRINTF_MAX_FLOAT < |(2000000000 : ℚ)|) ∧ (|(2000000000 : ℚ)| < DBL_MAX) ∧
    convDouble ⟨FmtFlags.none, 0, 0, .sizeDefault, 102⟩
        (.dblArg 2000000000 :: []) = (maxFloatDiag, []) ∧
    (|(3 / 2 : ℚ)| ≤ PICO_PRINTF_MAX_FLOAT) ∧
    convDouble ⟨FmtFlags.none, 0, 0, .sizeDefault, 102⟩ (.dblArg (3 / 2) :: []) =
      (ftoa ⟨FmtFlags.none, 0, 0, .sizeDefault, 102⟩ (3 / 2), []) ∧
    fmtRun ['%', 'f', 'Z'] [.dblArg 2000000000] = maxFloatDiag ++ ['Z'] := by
  have hm : PICO_PRINTF_MAX_FLOAT < |(2000000000 : ℚ)| := by
    rw [abs_of_nonneg (by norm_num)]
    norm_num [PICO_PRINTF_MAX_FLOAT]
  have hd : |(2000000000 : ℚ)| < DBL_MAX := by
    rw [abs_of_nonneg (by norm_num)]
    norm_num [DBL_MAX]
  have hs : |(3 / 2 : ℚ)| ≤ PICO_PRINTF_MAX_FLOAT := by
    rw [abs_of_nonneg (by norm_num)]
    norm_num [PICO_PRINTF_MAX_FLOAT]
  have happ := claim_C6_max_float ⟨FmtFlags.none, 0, 0, .sizeDefault, 102⟩
    2000000000 [] (Or.inl rfl)
  have happ2 := claim_C6_max_float ⟨FmtFlags.none, 0, 0, .sizeDefault, 102⟩
    (3 / 2) [] (Or.inl rfl)
  exact ⟨Or.inl rfl, hm, hd, happ.1 hm hd, hs, happ2.2.1 hs, happ.2.2 hm hd⟩

lemma lsdDigitLoop_len (k : Nat) : ∀ x fuel : Nat, 1 ≤ k → x < 10 ^ k → x ≤ fuel →
    (lsdDigitLoop (fuel + 1) x).length ≤ k := by
  induction k with
  | zero => intro x fuel h1 _ _; omega
  | succ k ih =>
    intro x fuel h1 hx hf
    simp only [lsdDigitLoop]
    by_cases hx10 : x / 10 = 0
    · simp [hx10]
    · have hxge : 10 ≤ x := by
        by_contra hlt
        push_neg at hlt
        exact hx10 (Nat.div_eq_of_lt hlt)
      have hk1 : 1 ≤ k := by
        rcases Nat.eq_zero_or_pos k with hk | hk
        · subst hk
          simp at hx
          omega
        · exact hk
      obtain ⟨f, rfl⟩ : ∃ f, fuel = f + 1 := ⟨fuel - 1, by omega⟩
      have hdivlt : x / 10 < 10 ^ k := by
        rw [Nat.div_lt_iff_lt_mul (by norm_num)]
        calc x < 10 ^ (k + 1) := hx
        _ = 10 ^ k * 10 := by rw [pow_succ]
      have hdivle : x / 10 ≤ f := by
        have := Nat.div_lt_self (show 0 < x by omega) (show 1 < 10 by omega)
        omega
      have hrec := ih (x / 10) f hk1 hdivlt hdivle
      simp only [hx10, if_neg, List.length_cons]
      simp [hx10]
      omega

lemma lsdDigits_len_le (k x : Nat) (h1 : 1 ≤ k) (hx : x < 10 ^ k) :
    (lsdDigits x).length ≤ k :=
  lsdDigitLoop_len k x x h1 hx le_rfl

lemma run_p0f (v : ℚ) :
    fmtRun "%.0f".toList [.dblArg v] =
      (convDouble ⟨⟨false, false, false, false, false, true⟩, 0, 0, .sizeDefault, 102⟩
        [.dblArg v]).1 := by
  have hstep : fmtRun "%.0f".toList [.dblArg v] =
      (convDouble ⟨⟨false, false, false, false, false, true⟩, 0, 0, .sizeDefault, 102⟩
          [.dblArg v]).1 ++
        vfctLoop specifier_table 3 []
          (convDouble ⟨⟨false, false, false, false, false, true⟩, 0, 0, .sizeDefault, 102⟩
            [.dblArg v]).2 := rfl
  rw [hstep]
  simp [vfctLoop]

lemma ftoa_p0_half (n : Nat) (hn : n ≤ 10 ^ 8) :
    ftoa ⟨⟨false, false, false, false, false, true⟩, 0, 0, .sizeDefault, 102⟩
        ((n : ℚ) + 1 / 2) =
      (lsdDigits (if n % 2 = 1 then n + 1 else n)).reverse := by
  set v : ℚ := (n : ℚ) + 1 / 2 with hv
  have hv0 : (0 : ℚ) ≤ v := by positivity
  have hvDBL : v < DBL_MAX := by
    have : ((10 : ℚ) ^ 8 : ℚ) + 1 ≤ DBL_MAX := by norm_num [DBL_MAX]
    have hnq : (n : ℚ) ≤ (10 : ℚ) ^ 8 := by exact_mod_cast hn
    rw [hv]
    linarith
  have hfs : floatSpecial
      ⟨⟨false, false, false, false, false, true⟩, 0, 0, .sizeDefault, 102⟩ v =
      Option.none := by
    have h1 : ¬ v < -DBL_MAX := by
      have : (0 : ℚ) < DBL_MAX := by norm_num [DBL_MAX]
      push_neg
      linarith
    have h2 : ¬ v > DBL_MAX := not_lt.mpr (le_of_lt hvDBL)
    simp [floatSpecial, h1, h2]
  have hfloor : ⌊v⌋ = (n : ℤ) := by
    rw [hv]
    rw [show ((n : ℚ) + 1 / 2) = ((n : ℤ) : ℚ) + 1 / 2 by push_cast; ring]
    rw [Int.floor_int_add]
    norm_num
  have hsub : v - ((n : Nat) : ℚ) = 1 / 2 := by rw [hv]; ring
  have hnneg : ¬ (v < 0) := not_lt.mpr hv0
  simp [ftoa, hfs, hnneg, ftoaPushRun, ftoaPushList, ftoaPush, PICO_PRINTF_FTOA_BUFFER_SIZE, hfloor]
  rw [hsub]
  have hrf : ftoaRoundFrac 1 (1 / 2 : ℚ) = (1, false) := by
    have hfl : ⌊(1 / 2 : ℚ)⌋ = 0 := by rw [Int.floor_eq_iff]; norm_num
    simp [ftoaRoundFrac, hfl]
    norm_num
  rw [hrf]
  have hrw : ftoaRoundWhole v n = if n % 2 = 1 then n + 1 else n := by
    simp only [ftoaRoundWhole, hsub]
    norm_num
  have hn2 : n ≤ 100000000 := by
    have : (10 : Nat) ^ 8 = 100000000 := by norm_num
    omega
  have hwlt : (if n % 2 = 1 then n + 1 else n) < 10 ^ 9 := by
    have : (10 : Nat) ^ 9 = 1000000000 := by norm_num
    split <;> omega
  have hlen : (lsdDigits (if n % 2 = 1 then n + 1 else n)).length ≤ 32 :=
    le_trans (lsdDigits_len_le 9 _ (by norm_num) hwlt) (by norm_num)
  simp [hrw, hlen, outRev]

lemma p0f_half_run (n : Nat) (hn : n ≤ 10 ^ 8) :
    fmtRun "%.0f".toList [.dblArg ((n : ℚ) + 1 / 2)] =
      (lsdDigits (if n % 2 = 1 then n + 1 else n)).reverse := by
  rw [run_p0f]
  have habs : |(n : ℚ) + 1 / 2| ≤ PICO_PRINTF_MAX_FLOAT := by
    rw [abs_of_nonneg (by positivity)]
    have hnq : (n : ℚ) ≤ 10 ^ 8 := by exact_mod_cast hn
    have : ((10 : ℚ) ^ 8) + 1 / 2 ≤ PICO_PRINTF_MAX_FLOAT := by
      norm_num [PICO_PRINTF_MAX_FLOAT]
    linarith
  rw [convDouble_f_inrange _ _ _ (Or.inl rfl) habs]
  exact ftoa_p0_half n hn

/-- C3: `%.0f` renders 1.5 as "2", 2.5 as "2", 3.5 as "4" and 0.5 as "0"; in
general, when the fractional residual is exactly one half the whole part `n`
is rounded up exactly when `n` is odd, the output being the decimal digits of
`n + 1` for odd `n` and of `n` for even `n`. -/
theorem claim_C3_bankers_rounding :
    fmtRun "%.0f".toList [.dblArg (3 / 2)] = ['2'] ∧
    fmtRun "%.0f".toList [.dblArg (5 / 2)] = ['2'] ∧
    fmtRun "%.0f".toList [.dblArg (7 / 2)] = ['4'] ∧
    fmtRun "%.0f".toList [.dblArg (1 / 2)] = ['0'] ∧
    (∀ n : Nat, n ≤ 10 ^ 8 →
      fmtRun "%.0f".toList [.dblArg ((n : ℚ) + 1 / 2)] =
        (lsdDigits (if n % 2 = 1 then n + 1 else n)).reverse) := by
  have h32 : (3 / 2 : ℚ) = ((1 : Nat) : ℚ) + 1 / 2 := by norm_num
  have h52 : (5 / 2 : ℚ) = ((2 : Nat) : ℚ) + 1 / 2 := by norm_num
  have h72 : (7 / 2 : ℚ) = ((3 : Nat) : ℚ) + 1 / 2 := by norm_num
  have h12 : (1 / 2 : ℚ) = ((0 : Nat) : ℚ) + 1 / 2 := by norm_num
  refine ⟨?_, ?_, ?_, ?_, fun n hn => p0f_half_run n hn⟩
  · rw [h32, p0f_half_run 1 (by norm_num)]; decide
  · rw [h52, p0f_half_run 2 (by norm_num)]; decide
  · rw [h72, p0f_half_run 3 (by norm_num)]; decide
  · rw [h12, p0f_half_run 0 (by norm_num)]; decide

theorem claim_C3_witness :
    2 ≤ 10 ^ 8 ∧
    fmtRun "%.0f".toList [.dblArg (((2 : Nat) : ℚ) + 1 / 2)] =
      (lsdDigits (if 2 % 2 = 1 then 2 + 1 else 2)).reverse :=
  ⟨by norm_num, claim_C3_bankers_rounding.2.2.2.2 2 (by norm_num)⟩

-- sanity checks: the concrete scenarios of the specification (section 8)

example :
    fmtRun "Hello %s, you are %d years old".toList
        [.strArg ['A', 'd', 'a'], .intArg 37] =
      "Hello Ada, you are 37 years old".toList := by decide

example : fmtRun "%08x".toList [.uintArg 0xabc] = "00000abc".toList := by decide

example :
    fmtRun "%-10s|%10s".toList [.strArg ['h', 'i'], .strArg ['h', 'i']] =
      "hi        |        hi".toList := by decide

example :
    fmtRun "%#b %#o %#x %#X".toList
        [.uintArg 5, .uintArg 8, .uintArg 255, .uintArg 255] =
      "0b101 010 0xff 0XFF".toList := by decide

example : fmtRun "%hhd|%hd|%lld".toList [.intArg 300, .intArg 70000, .llArg (-5)] =
    "44|4464|-5".toList := by decide
